import Mathlib

/-!
Verification of the kuper commit-collection pipeline (src/kuper.py).

The embedding below models `get_gitlab_commits` and `main` as pure Lean
functions.  Remote GitLab responses are supplied through an explicit `Api`
record: paginated endpoints become lists of page results (`Except` models a
`requests` transport failure / non-2xx status raised by `raise_for_status`),
and keyed endpoints become functions from the request key to the modelled
response.  Printing/logging is not modelled; otherwise the control flow of
the source (exclusion checks, the event scan with its pagination `break`,
the branch-priority sort, deduplication by `short_id`, diff assembly and the
final sort) is translated clause by clause.

Timestamps: the source parses `created_at` with `fromisoformat` and stores
`strftime('%Y-%m-%d %H:%M')`; the zero-padded decimal format is
order-isomorphic to the underlying time at minute resolution, so commit
times are embedded as a `Nat` (minutes), and the stored `date` field is that
same number.
-/

/-- Infix (substring) test on lists, modelling Python's `in` operator on
strings when applied to their character lists. -/
def listIsInfixOf [BEq α] : List α → List α → Bool
  | needle, [] => needle.isEmpty
  | needle, a :: as => needle.isPrefixOf (a :: as) || listIsInfixOf needle as

/-- Python `needle in hay` for strings. -/
def containsStr (hay needle : String) : Bool :=
  listIsInfixOf needle.data hay.data

/-- Python f-string rendering of a value that may be `None`. -/
def optStr : Option String → String
  | none => "None"
  | some s => s

/-- Python `s.startswith(pre)`: character-level prefix test (Lean's own
`String.startsWith` is byte-based and not kernel-reducible; on its
character lists the semantics is the same). -/
def strStartsWith (s pre : String) : Bool :=
  pre.data.isPrefixOf s.data

/-- Consume `pat` from the front of the list: `some` remainder on match. -/
def dropPre [BEq α] : List α → List α → Option (List α)
  | [], l => some l
  | _ :: _, [] => none
  | p :: ps, a :: as => if p == a then dropPre ps as else none

/-- Fuel-driven worker for `replaceStr`; every step consumes at least one
element when the pattern is nonempty, so fuel `l.length` suffices. -/
def replaceFuel [BEq α] (pat repl : List α) : Nat → List α → List α
  | _, [] => []
  | 0, l => l
  | Nat.succ fuel, a :: as =>
    match dropPre pat (a :: as) with
    | some rest =>
      if pat.isEmpty then a :: replaceFuel pat repl fuel as
      else repl ++ replaceFuel pat repl fuel rest
    | none => a :: replaceFuel pat repl fuel as

/-- Python `s.replace(pat, repl)`: all non-overlapping occurrences,
scanning left to right (the source only ever replaces the nonempty
pattern `"refs/heads/"`). -/
def replaceStr (s pat repl : String) : String :=
  ⟨replaceFuel pat.data repl.data s.data.length s.data⟩

/-- Whitespace recognized by Python's `str.strip()` (ASCII subset). -/
def isWs (c : Char) : Bool :=
  c == ' ' || c == '\t' || c == '\n' || c == '\r' || c == '\x0b' || c == '\x0c'

/-- Python `s.strip()`: drop leading and trailing whitespace. -/
def trimStr (s : String) : String :=
  ⟨((s.data.dropWhile isWs).reverse.dropWhile isWs).reverse⟩

/-- One element of the `/events` response.  `action_name` is
`event.get("action_name", "")` (absent key modelled as `""`), `project_id`
is `event.get("project_id")`, and `push_ref` is `push_data.get("ref")`
(`none` models an absent key, defaulted to `"unknown-branch"` in the code). -/
structure Event where
  action_name : String
  project_id : Option Nat
  push_ref : Option String
deriving Repr, DecidableEq

/-- One element of a `/repository/commits` response page.  `created_at` is
the parsed timestamp in minutes (see the header comment).  `author_email`
is carried by the GitLab payload; the source never reads it (its comment:
"Client-side filtering is no longer needed since 'author' param is used"). -/
structure CommitRec where
  id : String
  short_id : String
  created_at : Nat
  web_url : String
  message : String
  author_email : String
deriving Repr, DecidableEq

/-- One element of a `/commits/{id}/diff` response. -/
structure DiffRec where
  old_path : Option String
  new_path : Option String
  new_file : Bool
  deleted_file : Bool
  renamed_file : Bool
  diff : Option String
deriving Repr, DecidableEq

/-- Result of the diff GET for one commit: a raised
`requests.exceptions.RequestException` (rendered into the message), or a
response with its status code and JSON body. -/
inductive DiffFetch where
  | transport (e : String)
  | status (code : Nat) (body : List DiffRec)
deriving Repr, DecidableEq

/-- The modelled remote instance.  `eventsPages` is the sequence of pages
the events loop would traverse via `response.links['next']` (an `error`
models a `RequestException` on that fetch; the list ending models the
absence of a `next` link).  `projectDetails` is the
`/projects/{id}` lookup: `some path` models a 200 response carrying
`path_with_namespace`, `none` models a non-200 status, a transport failure,
or an absent key — all of which the source collapses into the sentinel
`"Unknown Project"`.  `commitPages` gives the commit pages for a
`(project_id, ref_name)` request, and `diffResp` the diff response keyed by
commit id. -/
structure Api where
  eventsPages : List (Except String (List Event))
  projectDetails : Nat → Option String
  commitPages : Nat → String → List (Except String (List CommitRec))
  diffResp : String → DiffFetch

/-- One entry of the list returned by `get_gitlab_commits` (the dict built
at the end of the commit loop).  `date` is the minute-resolution timestamp
(the `strftime('%Y-%m-%d %H:%M')` string, see header). -/
structure OutCommit where
  repo_name : String
  date : Nat
  branch : String
  short_sha : String
  url : String
  message : String
  diff : String
deriving Repr, DecidableEq

/-- First matching exclude rule for a repository display path: the
`for excluded_path in excludes: if repo_name.startswith(excluded_path)`
loop with its `break`. -/
def findExcl (excludes : List String) (name : String) : Option String :=
  excludes.find? (fun r => strStartsWith name r)

/-- Display name recorded in `project_cache` for a project id:
`path_with_namespace` on a 200 response, else `"Unknown Project"`.  The
cache itself is omitted: `projectDetails` is a function, so caching only
affects the number of requests, not the value. -/
def resolveName (details : Nat → Option String) (pid : Nat) : String :=
  (details pid).getD "Unknown Project"

/-- `push_data.get("ref", "unknown-branch").replace("refs/heads/", "")`. -/
def eventBranch (ev : Event) : String :=
  replaceStr (ev.push_ref.getD "unknown-branch") "refs/heads/" ""

/-- A branch candidate: `(project_id, repo_name, branch)` as added to
`active_repos_and_branches`. -/
abbrev Cand := Nat × String × String

/-- Body of the `for event in events` loop of step 1.  The candidate set is
kept as a duplicate-free list.  The `skipped_repos` bookkeeping only
deduplicates a log line and is not modelled. -/
def processEvent (details : Nat → Option String) (excludes : List String)
    (cands : List Cand) (ev : Event) : List Cand :=
  if containsStr ev.action_name "pushed" then
    match ev.project_id with
    | none => cands
    | some pid =>
      if pid = 0 then cands            -- `if not project_id: continue` (0 is falsy)
      else
        let repoName := resolveName details pid
        if (findExcl excludes repoName).isSome then cands   -- `is_excluded`
        else
          let branch := eventBranch ev
          if branch = "unknown-branch" then cands
          else if (pid, repoName, branch) ∈ cands then cands
          else cands ++ [(pid, repoName, branch)]
  else cands

/-- The `while events_url` loop of step 1: pages are processed in order; a
fetch failure prints and `break`s, keeping the candidates found so far. -/
def scanPages (details : Nat → Option String) (excludes : List String) :
    List (Except String (List Event)) → List Cand → List Cand
  | [], cands => cands
  | Except.error _ :: _, cands => cands
  | Except.ok evs :: rest, cands =>
      scanPages details excludes rest (evs.foldl (processEvent details excludes) cands)

/-- The desired branch processing order (`branch_order` in the source). -/
def branch_order : List String :=
  ["master", "main", "prod", "nonprod", "develop", "development"]

/-- `branch_order.index(branch)`, with `len(branch_order)` on
`ValueError`; `List.indexOf` returns the length when absent, matching. -/
def branchPriority (branch : String) : Nat :=
  branch_order.indexOf branch

/-- Lexicographic order on a pair, first component by a linear order,
second by a supplied relation — Python tuple comparison, one layer. -/
def Lex2 {α β : Type} [LinearOrder α] (le : β → β → Prop) (p q : α × β) : Prop :=
  p.1 < q.1 ∨ (p.1 = q.1 ∧ le p.2 q.2)

instance {α β : Type} [LinearOrder α] (le : β → β → Prop) [DecidableRel le] :
    DecidableRel (Lex2 (α := α) le) := fun p q =>
  decidable_of_iff (p.1 < q.1 ∨ (p.1 = q.1 ∧ le p.2 q.2)) Iff.rfl

instance charsLeDecRel : DecidableRel (fun x y : List Char => x ≤ y) := fun x y =>
  inferInstanceAs (Decidable (x ≤ y))

instance natLeDecRel : DecidableRel (fun x y : Nat => x ≤ y) := fun x y =>
  inferInstanceAs (Decidable (x ≤ y))

def Lex2.total {α β : Type} [LinearOrder α] {le : β → β → Prop}
    (h : ∀ x y, le x y ∨ le y x) (p q : α × β) : Lex2 le p q ∨ Lex2 le q p := by
  rcases lt_trichotomy p.1 q.1 with h1 | h1 | h1
  · exact Or.inl (Or.inl h1)
  · rcases h p.2 q.2 with h2 | h2
    · exact Or.inl (Or.inr ⟨h1, h2⟩)
    · exact Or.inr (Or.inr ⟨h1.symm, h2⟩)
  · exact Or.inr (Or.inl h1)

def Lex2.trans {α β : Type} [LinearOrder α] {le : β → β → Prop}
    (h : ∀ x y z, le x y → le y z → le x z) (p q r : α × β) :
    Lex2 le p q → Lex2 le q r → Lex2 le p r := by
  rintro (h1 | ⟨e1, l1⟩) (h2 | ⟨e2, l2⟩)
  · exact Or.inl (h1.trans h2)
  · exact Or.inl (e2 ▸ h1)
  · exact Or.inl (by rw [e1]; exact h2)
  · exact Or.inr ⟨e1.trans e2, h _ _ _ l1 l2⟩

/-- `sort_key(item) = (repo_name, branch_priority, branch)` — the key the
candidate sort compares by.  Python compares strings lexicographically by
code point, which is the lexicographic order on their character lists
(Lean's iterator-based string order is the same relation but not
kernel-reducible, so the keys use `.data`). -/
def candQ (c : Cand) : List Char × Nat × List Char :=
  (c.2.1.data, branchPriority c.2.2, c.2.2.data)

/-- Order on candidates induced by `sort_key` under Python tuple
comparison. -/
def candLe (a b : Cand) : Prop :=
  Lex2 (Lex2 (fun x y : List Char => x ≤ y)) (candQ a) (candQ b)

instance : DecidableRel candLe := fun a b => by
  unfold candLe
  infer_instance

instance : IsTotal Cand candLe :=
  ⟨fun a b => Lex2.total
    (fun x y => Lex2.total (fun u v : List Char => le_total u v) x y) (candQ a) (candQ b)⟩

instance : IsTrans Cand candLe :=
  ⟨fun a b c => Lex2.trans
    (fun x y z => Lex2.trans
      (fun (u v w : List Char) (huv : u ≤ v) (hvw : v ≤ w) => le_trans huv hvw) x y z)
    (candQ a) (candQ b) (candQ c)⟩

/-- File header built for one diff fragment (the `new_file` /
`deleted_file` / `renamed_file` / modified cases). -/
def diffHeader (d : DiffRec) : String :=
  if d.new_file then "--- New file: " ++ optStr d.new_path ++ " ---"
  else if d.deleted_file then "--- Deleted file: " ++ optStr d.old_path ++ " ---"
  else if d.renamed_file then
    "--- Renamed: " ++ optStr d.old_path ++ " -> " ++ optStr d.new_path ++ " ---"
  else "--- Modified: " ++ optStr d.new_path ++ " ---"

/-- The `diff_text` computed for one commit: `""` when diffs were not
requested; otherwise the joined per-file fragments on a 200 response, the
placeholder `"Could not retrieve diff."` on any other status, and
`"Error fetching diff: " ++ e` on a transport failure. -/
def diffText (api : Api) (fetchDiffs : Bool) (cid : String) : String :=
  if fetchDiffs then
    match api.diffResp cid with
    | DiffFetch.transport e => "Error fetching diff: " ++ e
    | DiffFetch.status code body =>
      if code = 200 then
        String.intercalate "\n\n"
          (body.map (fun d => diffHeader d ++ "\n" ++ d.diff.getD "Diff content not available."))
      else "Could not retrieve diff."
  else ""

/-- The dict appended to `all_commits` for a retained commit. -/
def mkOut (api : Api) (fetchDiffs : Bool) (repoName branch : String) (c : CommitRec) : OutCommit :=
  { repo_name := repoName
    date := c.created_at
    branch := branch
    short_sha := c.short_id
    url := c.web_url
    message := trimStr c.message
    diff := diffText api fetchDiffs c.id }

/-- Collector state: `all_commits` and the `processed_shas` set (kept as a
list; only membership is used). -/
structure CState where
  acc : List OutCommit
  seen : List String
deriving Repr, DecidableEq

/-- Body of `for commit in commits_from_api`: duplicates by `short_id` are
skipped, otherwise the short id is recorded and the output row appended. -/
def processCommit (api : Api) (fetchDiffs : Bool) (repoName branch : String)
    (st : CState) (c : CommitRec) : CState :=
  if c.short_id ∈ st.seen then st
  else { acc := st.acc ++ [mkOut api fetchDiffs repoName branch c]
         seen := st.seen ++ [c.short_id] }

/-- The `while commits_url` loop for one candidate: pages in pagination
order; a fetch failure prints and `break`s (remaining pages are dropped),
an empty page body also `break`s. -/
def processPages (api : Api) (fetchDiffs : Bool) (repoName branch : String) :
    List (Except String (List CommitRec)) → CState → CState
  | [], st => st
  | Except.error _ :: _, st => st
  | Except.ok cs :: rest, st =>
      if cs = [] then st
      else processPages api fetchDiffs repoName branch rest
            (cs.foldl (processCommit api fetchDiffs repoName branch) st)

/-- Body of `for project_id, repo_name, branch in sorted_active_branches`. -/
def processCandidate (api : Api) (fetchDiffs : Bool) (st : CState) (cand : Cand) : CState :=
  processPages api fetchDiffs cand.2.1 cand.2.2 (api.commitPages cand.1 cand.2.2) st

/-- Step 2 of `get_gitlab_commits`: every sorted candidate in turn. -/
def collectCommits (api : Api) (fetchDiffs : Bool) (cands : List Cand) (st : CState) : CState :=
  cands.foldl (processCandidate api fetchDiffs) st

/-- Key of the final sort: `lambda x: (x['repo_name'], x['date'])`. -/
def outQ (o : OutCommit) : List Char × Nat :=
  (o.repo_name.data, o.date)

/-- Order on output rows induced by the final sort key. -/
def outLe (a b : OutCommit) : Prop :=
  Lex2 (fun x y : Nat => x ≤ y) (outQ a) (outQ b)

instance : DecidableRel outLe := fun a b => by
  unfold outLe
  infer_instance

instance : IsTotal OutCommit outLe :=
  ⟨fun a b => Lex2.total (fun u v : Nat => le_total u v) (outQ a) (outQ b)⟩

instance : IsTrans OutCommit outLe :=
  ⟨fun a b c => Lex2.trans
    (fun (u v w : Nat) (huv : u ≤ v) (hvw : v ≤ w) => le_trans huv hvw)
    (outQ a) (outQ b) (outQ c)⟩

/-- `get_gitlab_commits`: scan events for candidates, sort them by
`sort_key`, collect and deduplicate commits, and return `all_commits`
sorted by `(repo_name, date)`.  `start_date` and `user_email` enter the
source only through the request parameters (see `commitsParams`); the
modelled responses already reflect whatever the server did with them. -/
def get_gitlab_commits (api : Api) (excludes : List String) (fetchDiffs : Bool) :
    List OutCommit :=
  List.insertionSort outLe
    (collectCommits api fetchDiffs
      (List.insertionSort candLe (scanPages api.projectDetails excludes api.eventsPages []))
      { acc := [], seen := [] }).acc

/-- The query parameters of the commit-listing request (`commits_params`). -/
structure CommitsParams where
  ref_name : String
  since : Nat
  author : String
  per_page : Nat
  with_stats : String
deriving Repr, DecidableEq

/-- `commits_params` as built in the source for one candidate branch. -/
def commitsParams (branch : String) (startDate : Nat) (userEmail : String) : CommitsParams :=
  { ref_name := branch
    since := startDate
    author := userEmail
    per_page := 100
    with_stats := "false" }

/-- Parsed CLI arguments.  `--instance` only shapes URLs and is omitted. -/
structure MainArgs where
  days : Int
  report : Bool
deriving Repr, DecidableEq

/-- The loaded configuration document: `token` plus
`config.get("excludes", [])`. -/
structure Config where
  token : String
  excludes : List String
deriving Repr, DecidableEq

/-- The current-user profile returned by `get_current_user` on success. -/
structure UserProfile where
  email : String
  username : String
deriving Repr, DecidableEq

/-- Outcome of `main`: `fatal code msg` models a `sys.exit(code)` path;
`finished` models `main` returning normally, after which the process exits
with status 0.  It records whether the "No new commits found" message was
printed, the commit rows printed to the console, and whether an HTML
report file was written. -/
inductive RunOutcome where
  | fatal (exitCode : Nat) (msg : String)
  | finished (noCommitsMsg : Bool) (printed : List OutCommit) (htmlWritten : Bool)
deriving Repr, DecidableEq

/-- `main` after argument parsing: the days bound check, the config load
(`none` models a missing file or a document without `token`, both of which
`sys.exit(1)`), the current-user lookup (`none`, the `get_current_user`
failure value, is fatal), then the collector call with
`fetch_diffs = args.report`, the empty-result early return, console
output, and the optional report.  `generate_report` writes its file only
when both template files open, which `templatesOk` models. -/
def mainRun (args : MainArgs) (config : Option Config) (profile : Option UserProfile)
    (api : Api) (templatesOk : Bool) : RunOutcome :=
  if 1 ≤ args.days ∧ args.days ≤ 45 then
    match config with
    | none => RunOutcome.fatal 1 "Error: config"
    | some cfg =>
      match profile with
      | none => RunOutcome.fatal 1 "Could not determine current user's profile. Aborting."
      | some _ =>
        let commits := get_gitlab_commits api cfg.excludes args.report
        if commits = [] then RunOutcome.finished true [] false
        else RunOutcome.finished false commits (args.report && templatesOk)
  else RunOutcome.fatal 1 "Error: --days must be between 1 and 45."

/-- API used by the C1 counterexample: one pushed event for a project
whose display path is `"group/proj-other"`, with one commit on `main`. -/
def c1Api : Api :=
  { eventsPages := [Except.ok [
      { action_name := "pushed", project_id := some 7, push_ref := some "refs/heads/main" }]]
    projectDetails := fun _ => some "group/proj-other"
    commitPages := fun _ _ => [Except.ok [
      { id := "deadbeef", short_id := "dead", created_at := 500, web_url := "u1",
        message := "fix", author_email := "me@x" }]]
    diffResp := fun _ => DiffFetch.status 200 [] }

/-- API whose every project resolves to the excluded path used by the C1
witness. -/
def c1wApi : Api :=
  { eventsPages := [Except.ok [
      { action_name := "pushed", project_id := some 3, push_ref := some "refs/heads/main" }]]
    projectDetails := fun _ => some "group/proj/svc"
    commitPages := fun _ _ => [Except.ok [
      { id := "cafe", short_id := "ca", created_at := 10, web_url := "u", message := "m",
        author_email := "me@x" }]]
    diffResp := fun _ => DiffFetch.status 200 [] }

/-- Inductive invariant of the collection loop: collected rows carry
pairwise-distinct short ids, each of which has been recorded in `seen`. -/
def CInv (st : CState) : Prop :=
  st.acc.Pairwise (fun a b => a.short_sha ≠ b.short_sha) ∧
  ∀ o ∈ st.acc, o.short_sha ∈ st.seen

/-- Event of the C3 scenario pushing `develop` (listed first so that the
priority sort must move `main` ahead of it). -/
def devEvent : Event :=
  { action_name := "pushed", project_id := some 1, push_ref := some "refs/heads/develop" }

/-- Event of the C3 scenario pushing `main`. -/
def mainEvent : Event :=
  { action_name := "pushed", project_id := some 1, push_ref := some "refs/heads/main" }

/-- API of the C3 scenario: one repository with display name `name`, whose
`develop` and `main` branches both return exactly the commit `c`. -/
def c3Api (name : String) (c : CommitRec) : Api :=
  { eventsPages := [Except.ok [devEvent, mainEvent]]
    projectDetails := fun _ => some name
    commitPages := fun _ _ => [Except.ok [c]]
    diffResp := fun _ => DiffFetch.status 200 [] }

/-- API used by the C4 counterexample: the provider returns one commit
authored at time 0 by a different author (`other@x`); the collector keeps
it anyway, because the source performs no client-side filtering. -/
def c4Api : Api :=
  { eventsPages := [Except.ok [
      { action_name := "pushed", project_id := some 5, push_ref := some "refs/heads/main" }]]
    projectDetails := fun _ => some "g/r"
    commitPages := fun _ _ => [Except.ok [
      { id := "00ff", short_id := "00", created_at := 0, web_url := "u", message := "old",
        author_email := "other@x" }]]
    diffResp := fun _ => DiffFetch.status 200 [] }

/-- The bound "every collected row dates from the window or later". -/
def accDateBound (start : Nat) (st : CState) : Prop :=
  ∀ o ∈ st.acc, start ≤ o.date

/-- API for the C4 witness: all returned commits lie inside the window. -/
def c4wApi : Api :=
  { eventsPages := [Except.ok [
      { action_name := "pushed", project_id := some 5, push_ref := some "refs/heads/main" }]]
    projectDetails := fun _ => some "g/r"
    commitPages := fun _ _ => [Except.ok [
      { id := "11aa", short_id := "11", created_at := 250, web_url := "u", message := "new",
        author_email := "me@x" }]]
    diffResp := fun _ => DiffFetch.status 200 [] }

def zCommit : CommitRec :=
  { id := "z1", short_id := "z", created_at := 10, web_url := "uz", message := "mz",
    author_email := "e" }

def aCommit : CommitRec :=
  { id := "a1", short_id := "a", created_at := 10, web_url := "ua", message := "ma",
    author_email := "e" }

/-- API of the C5 counterexample: two repositories `Zeta` and `alpha`,
one commit each. -/
def c5Api : Api :=
  { eventsPages := [Except.ok [
      { action_name := "pushed", project_id := some 1, push_ref := some "refs/heads/main" },
      { action_name := "pushed", project_id := some 2, push_ref := some "refs/heads/main" }]]
    projectDetails := fun pid => if pid = 1 then some "Zeta" else some "alpha"
    commitPages := fun pid _ => if pid = 1 then [Except.ok [zCommit]] else [Except.ok [aCommit]]
    diffResp := fun _ => DiffFetch.status 200 [] }

/-- API whose push-events listing fails outright. -/
def c7Api : Api :=
  { eventsPages := [Except.error "Connection timeout"]
    projectDetails := fun _ => some "group/widgets"
    commitPages := fun _ _ => [Except.ok [
      { id := "77", short_id := "7a", created_at := 300, web_url := "u", message := "m",
        author_email := "me@x" }]]
    diffResp := fun _ => DiffFetch.status 200 [] }

/-- The report row the commit loop appends for commit `c` when the
computed diff text is `d`. -/
def rowWithDiff (rn br : String) (c : CommitRec) (d : String) : OutCommit :=
  { repo_name := rn, date := c.created_at, branch := br, short_sha := c.short_id,
    url := c.web_url, message := trimStr c.message, diff := d }

/-- API whose diff endpoint always fails with a transport error. -/
def c8Api : Api :=
  { eventsPages := []
    projectDetails := fun _ => none
    commitPages := fun _ _ => []
    diffResp := fun _ => DiffFetch.transport "timeout" }

def c8c : CommitRec :=
  { id := "x1", short_id := "x", created_at := 5, web_url := "u", message := "m",
    author_email := "e" }

/-- API with an event page but no commits anywhere. -/
def emptyApi : Api :=
  { eventsPages := [Except.ok []]
    projectDetails := fun _ => some "g/r"
    commitPages := fun _ _ => []
    diffResp := fun _ => DiffFetch.status 200 [] }

def c10Event : Event :=
  { action_name := "pushed", project_id := some 9, push_ref := some "refs/heads/feature" }

/-! ## Claim C1: exclusion matching -/

/-- If every resolvable display name is excluded, an event never adds a
candidate. -/
theorem processEvent_all_excluded (details : Nat → Option String) (excludes : List String)
    (cands : List Cand) (ev : Event)
    (h : ∀ pid, (findExcl excludes (resolveName details pid)).isSome = true) :
    processEvent details excludes cands ev = cands := by
  obtain ⟨an, opid, oref⟩ := ev
  unfold processEvent
  cases opid with
  | none => simp
  | some pid =>
    by_cases hpush : containsStr an "pushed" = true
    · by_cases hz : pid = 0
      · simp [hpush, hz]
      · simp [hpush, hz, h pid]
    · simp [hpush]

/-- If every resolvable display name is excluded, the event scan finds no
candidates beyond those given. -/
theorem scanPages_all_excluded (details : Nat → Option String) (excludes : List String)
    (pages : List (Except String (List Event)))
    (h : ∀ pid, (findExcl excludes (resolveName details pid)).isSome = true) :
    ∀ cands, scanPages details excludes pages cands = cands := by
  induction pages with
  | nil => intro cands; rfl
  | cons pg rest ih =>
    intro cands
    cases pg with
    | error e => rfl
    | ok evs =>
      show scanPages details excludes rest (evs.foldl (processEvent details excludes) cands) = cands
      have hfold : evs.foldl (processEvent details excludes) cands = cands := by
        induction evs generalizing cands with
        | nil => rfl
        | cons ev evs ihe =>
          show evs.foldl (processEvent details excludes) (processEvent details excludes cands ev) = cands
          rw [processEvent_all_excluded details excludes cands ev h]
          exact ihe cands
      rw [hfold]
      exact ih cands

/-- C1 counterexample: with exclude rule `"group/proj"`, the repository
`"group/proj-other"` — neither equal to the rule nor extending it across a
`"/"` separator — is nevertheless skipped entirely (no commits collected),
while the very same run with no excludes collects its one commit. -/
theorem C1_counterexample :
    get_gitlab_commits c1Api ["group/proj"] false = [] ∧
    (get_gitlab_commits c1Api [] false).length = 1 ∧
    ¬("group/proj-other" = "group/proj" ∨
      strStartsWith "group/proj-other" ("group/proj" ++ "/") = true) :=
  ⟨by decide, by decide, by decide⟩

/-- C1 amended: a repository is excluded if and only if its display path
starts with some rule as a plain string prefix — no separator is required
after the rule, so with rule `"group/proj"` the paths `"group/proj"`,
`"group/proj/sub"` and also `"group/proj-other"` are all excluded; and a
run in which every resolvable display path is excluded collects nothing. -/
theorem C1_amended :
    (∀ (excludes : List String) (name : String),
      (findExcl excludes name).isSome = true ↔
        ∃ r ∈ excludes, strStartsWith name r = true) ∧
    (findExcl ["group/proj"] "group/proj").isSome = true ∧
    (findExcl ["group/proj"] "group/proj/sub").isSome = true ∧
    (findExcl ["group/proj"] "group/proj-other").isSome = true ∧
    (∀ (api : Api) (excludes : List String) (fetchDiffs : Bool),
      (∀ pid, (findExcl excludes (resolveName api.projectDetails pid)).isSome = true) →
      get_gitlab_commits api excludes fetchDiffs = []) := by
  refine ⟨?_, by decide, by decide, by decide, ?_⟩
  · intro excludes name
    simp [findExcl, List.find?_isSome]
  · intro api excludes fetchDiffs h
    unfold get_gitlab_commits
    rw [scanPages_all_excluded api.projectDetails excludes api.eventsPages h]
    rfl

theorem C1_amended_witness : get_gitlab_commits c1wApi ["group/proj"] false = [] :=
  C1_amended.2.2.2.2 c1wApi ["group/proj"] false
    (fun _ => show (findExcl ["group/proj"] "group/proj/svc").isSome = true by decide)

/-! ## Claim C2: global short-id uniqueness -/

theorem cinv_processCommit (api : Api) (fd : Bool) (rn br : String) (st : CState)
    (c : CommitRec) (h : CInv st) : CInv (processCommit api fd rn br st c) := by
  unfold processCommit
  split
  · exact h
  · next hmem =>
    constructor
    · refine List.pairwise_append.2 ⟨h.1, List.pairwise_singleton _ _, ?_⟩
      intro a ha b hb
      simp only [List.mem_singleton] at hb
      subst hb
      show a.short_sha ≠ c.short_id
      intro hEq
      exact hmem (hEq ▸ h.2 a ha)
    · intro o ho
      rcases List.mem_append.1 ho with h1 | h1
      · exact List.mem_append_left _ (h.2 o h1)
      · simp only [List.mem_singleton] at h1
        subst h1
        exact List.mem_append_right _ (by simp [mkOut])

theorem cinv_foldl (api : Api) (fd : Bool) (rn br : String) (cs : List CommitRec) :
    ∀ st, CInv st → CInv (cs.foldl (processCommit api fd rn br) st) := by
  induction cs with
  | nil => intro st h; exact h
  | cons c cs ih => intro st h; exact ih _ (cinv_processCommit api fd rn br st c h)

theorem cinv_processPages (api : Api) (fd : Bool) (rn br : String)
    (pages : List (Except String (List CommitRec))) :
    ∀ st, CInv st → CInv (processPages api fd rn br pages st) := by
  induction pages with
  | nil => intro st h; exact h
  | cons pg rest ih =>
    intro st h
    cases pg with
    | error e => exact h
    | ok cs =>
      show CInv (if cs = [] then st
        else processPages api fd rn br rest (cs.foldl (processCommit api fd rn br) st))
      split
      · exact h
      · exact ih _ (cinv_foldl api fd rn br cs st h)

theorem cinv_collect (api : Api) (fd : Bool) (cands : List Cand) :
    ∀ st, CInv st → CInv (collectCommits api fd cands st) := by
  induction cands with
  | nil => intro st h; exact h
  | cons cand cands ih =>
    intro st h
    exact ih _ (cinv_processPages api fd cand.2.1 cand.2.2 (api.commitPages cand.1 cand.2.2) st h)

/-- C2: no two rows of the list returned by `get_gitlab_commits` share a
short identifier — a record whose short id was already retained is dropped
and the retained set is unchanged (the `processed_shas` check). -/
theorem C2_short_ids_unique (api : Api) (excludes : List String) (fetchDiffs : Bool) :
    (get_gitlab_commits api excludes fetchDiffs).Pairwise
      (fun a b => a.short_sha ≠ b.short_sha) := by
  unfold get_gitlab_commits
  have h0 : CInv { acc := [], seen := [] } :=
    ⟨List.Pairwise.nil, fun o ho => absurd ho (List.not_mem_nil o)⟩
  have hinv := cinv_collect api fetchDiffs
    (List.insertionSort candLe (scanPages api.projectDetails excludes api.eventsPages []))
    { acc := [], seen := [] } h0
  have hperm := List.perm_insertionSort outLe
    (collectCommits api fetchDiffs
      (List.insertionSort candLe (scanPages api.projectDetails excludes api.eventsPages []))
      { acc := [], seen := [] }).acc
  exact (hperm.pairwise_iff (fun h => Ne.symm h)).2 hinv.1

/-! ## Claim C3: branch priority order -/

/-- A one-commit page runs the commit loop body exactly once. -/
theorem processPages_single (api : Api) (fd : Bool) (rn br : String) (c : CommitRec)
    (st : CState) :
    processPages api fd rn br [Except.ok [c]] st = processCommit api fd rn br st c := by
  unfold processPages
  rw [if_neg (by simp : ¬([c] = []))]
  rfl

theorem not_candLe_dev_main (pid : Nat) (name : String) :
    ¬ candLe (pid, name, "develop") (pid, name, "main") := by
  have h4 : branchPriority "develop" = 4 := by decide
  have h1 : branchPriority "main" = 1 := by decide
  unfold candLe Lex2 candQ
  simp only [h4, h1]
  rintro (h | ⟨-, h | ⟨h, -⟩⟩)
  · exact lt_irrefl _ h
  · omega
  · omega

/-- C3: the primary branches carry priorities 0..5 in their listed order,
every other branch gets priority 6, two non-primary branches of the same
repository compare lexically, and on the two-candidate scenario
(`develop` and `main` both containing commit `c`) the single retained row
is attributed to `main`. -/
theorem C3_branch_priority :
    (branch_order.map branchPriority = [0, 1, 2, 3, 4, 5]) ∧
    (∀ b : String, b ∉ branch_order → branchPriority b = 6) ∧
    (∀ (pid : Nat) (name b₁ b₂ : String),
      branchPriority b₁ = 6 → branchPriority b₂ = 6 →
      (candLe (pid, name, b₁) (pid, name, b₂) ↔ b₁.data ≤ b₂.data)) ∧
    (∀ (name : String) (c : CommitRec),
      get_gitlab_commits (c3Api name c) [] false =
        [{ repo_name := name, date := c.created_at, branch := "main",
           short_sha := c.short_id, url := c.web_url,
           message := trimStr c.message, diff := "" }]) := by
  refine ⟨by decide, ?_, ?_, ?_⟩
  · intro b hb
    unfold branchPriority
    have : branch_order.indexOf b = branch_order.length := List.indexOf_eq_length.2 hb
    simpa using this
  · intro pid name b₁ b₂ h₁ h₂
    unfold candLe Lex2 candQ
    constructor
    · rintro (h | ⟨-, h | ⟨-, h⟩⟩)
      · exact absurd h (lt_irrefl _)
      · rw [h₁, h₂] at h
        exact absurd h (lt_irrefl _)
      · exact h
    · intro h
      exact Or.inr ⟨rfl, Or.inr ⟨by rw [h₁, h₂], h⟩⟩
  · intro name c
    have hscan : scanPages (c3Api name c).projectDetails [] (c3Api name c).eventsPages [] =
        [(1, name, "develop"), (1, name, "main")] := by
      show List.foldl (processEvent (fun _ => some name) []) [] [devEvent, mainEvent] =
        [(1, name, "develop"), (1, name, "main")]
      have hd : processEvent (fun _ => some name) [] [] devEvent = [(1, name, "develop")] := rfl
      have hm : processEvent (fun _ => some name) [] [(1, name, "develop")] mainEvent =
          [(1, name, "develop"), (1, name, "main")] := by
        unfold processEvent
        have hmem : ((1, name, "main") ∈ [(1, name, "develop")]) = False := by
          simp [Prod.ext_iff]
        simp [resolveName, findExcl, hmem]
        rfl
      simp only [List.foldl, hd, hm]
    have hsort : List.insertionSort candLe [(1, name, "develop"), (1, name, "main")] =
        [(1, name, "main"), (1, name, "develop")] := by
      simp only [List.insertionSort, List.orderedInsert]
      rw [if_neg (not_candLe_dev_main 1 name)]
    have hc1 : processCommit (c3Api name c) false name "main" { acc := [], seen := [] } c =
        { acc := [mkOut (c3Api name c) false name "main" c], seen := [c.short_id] } := by
      unfold processCommit
      simp
    have hc2 : processCommit (c3Api name c) false name "develop"
        { acc := [mkOut (c3Api name c) false name "main" c], seen := [c.short_id] } c =
        { acc := [mkOut (c3Api name c) false name "main" c], seen := [c.short_id] } := by
      unfold processCommit
      simp
    have hpc1 : processCandidate (c3Api name c) false { acc := [], seen := [] }
        (1, name, "main") =
        { acc := [mkOut (c3Api name c) false name "main" c], seen := [c.short_id] } := by
      show processPages (c3Api name c) false name "main" [Except.ok [c]]
        { acc := [], seen := [] } = _
      rw [processPages_single]
      exact hc1
    have hpc2 : processCandidate (c3Api name c) false
        { acc := [mkOut (c3Api name c) false name "main" c], seen := [c.short_id] }
        (1, name, "develop") =
        { acc := [mkOut (c3Api name c) false name "main" c], seen := [c.short_id] } := by
      show processPages (c3Api name c) false name "develop" [Except.ok [c]]
        { acc := [mkOut (c3Api name c) false name "main" c], seen := [c.short_id] } = _
      rw [processPages_single]
      exact hc2
    unfold get_gitlab_commits
    rw [hscan, hsort]
    show List.insertionSort outLe (processCandidate (c3Api name c) false
        (processCandidate (c3Api name c) false { acc := [], seen := [] } (1, name, "main"))
        (1, name, "develop")).acc = _
    rw [hpc1, hpc2]
    rfl

theorem C3_branch_priority_witness :
    branchPriority "feature/x" = 6 ∧
    (candLe (1, "group/proj", "feature/a") (1, "group/proj", "feature/b") ↔
      "feature/a".data ≤ "feature/b".data) :=
  ⟨C3_branch_priority.2.1 "feature/x" (by decide),
   C3_branch_priority.2.2.1 1 "group/proj" "feature/a" "feature/b" (by decide) (by decide)⟩

/-! ## Claim C4: author / time-window filtering -/

/-- C4 counterexample: for a window starting at minute 100 and target
author `me@x`, a provider response containing a commit from minute 0 (by
`other@x`) still lands in the final report — its date 0 is below the
window start, contradicting the claim that such records are dropped
regardless of what the API returns. -/
theorem C4_counterexample :
    (get_gitlab_commits c4Api [] false).map (fun o => o.date) = [0] ∧ ¬(100 ≤ (0 : Nat)) :=
  ⟨by decide, by decide⟩

theorem dateBound_processCommit (api : Api) (fd : Bool) (rn br : String) (start : Nat)
    (st : CState) (c : CommitRec) (hc : start ≤ c.created_at)
    (h : accDateBound start st) : accDateBound start (processCommit api fd rn br st c) := by
  unfold processCommit
  split
  · exact h
  · intro o ho
    rcases List.mem_append.1 ho with h1 | h1
    · exact h o h1
    · simp only [List.mem_singleton] at h1
      subst h1
      exact hc

theorem dateBound_foldl (api : Api) (fd : Bool) (rn br : String) (start : Nat)
    (cs : List CommitRec) (hcs : ∀ c ∈ cs, start ≤ c.created_at) :
    ∀ st, accDateBound start st →
      accDateBound start (cs.foldl (processCommit api fd rn br) st) := by
  induction cs with
  | nil => intro st h; exact h
  | cons c cs ih =>
    intro st h
    exact ih (fun x hx => hcs x (List.mem_cons_of_mem c hx)) _
      (dateBound_processCommit api fd rn br start st c (hcs c (List.mem_cons_self c cs)) h)

theorem dateBound_processPages (api : Api) (fd : Bool) (rn br : String) (start : Nat)
    (pages : List (Except String (List CommitRec)))
    (hp : ∀ cs, Except.ok cs ∈ pages → ∀ c ∈ cs, start ≤ c.created_at) :
    ∀ st, accDateBound start st → accDateBound start (processPages api fd rn br pages st) := by
  induction pages with
  | nil => intro st h; exact h
  | cons pg rest ih =>
    intro st h
    cases pg with
    | error e => exact h
    | ok cs =>
      show accDateBound start (if cs = [] then st
        else processPages api fd rn br rest (cs.foldl (processCommit api fd rn br) st))
      split
      · exact h
      · exact ih (fun xs hxs => hp xs (List.mem_cons_of_mem _ hxs)) _
          (dateBound_foldl api fd rn br start cs (hp cs (List.mem_cons_self _ rest)) st h)

theorem dateBound_collect (api : Api) (fd : Bool) (start : Nat) (cands : List Cand)
    (hapi : ∀ (pid : Nat) (br : String) (cs : List CommitRec),
      Except.ok cs ∈ api.commitPages pid br → ∀ c ∈ cs, start ≤ c.created_at) :
    ∀ st, accDateBound start st → accDateBound start (collectCommits api fd cands st) := by
  induction cands with
  | nil => intro st h; exact h
  | cons cand cands ih =>
    intro st h
    exact ih _ (dateBound_processPages api fd cand.2.1 cand.2.2 start
      (api.commitPages cand.1 cand.2.2) (fun cs hcs => hapi cand.1 cand.2.2 cs hcs) st h)

/-- C4 amended: the collector delegates author and window filtering to the
provider — each commit-listing request carries `since = start` and
`author = email`, and no client-side check is performed — so the window
bound holds for the report exactly when the provider honours it: if every
commit record in every returned page is dated at or after the window
start, then so is every row of the final report. -/
theorem C4_amended (start : Nat) (email branch : String) (api : Api)
    (excludes : List String) (fetchDiffs : Bool) :
    ((commitsParams branch start email).since = start ∧
     (commitsParams branch start email).author = email) ∧
    ((∀ (pid : Nat) (br : String) (cs : List CommitRec),
        Except.ok cs ∈ api.commitPages pid br → ∀ c ∈ cs, start ≤ c.created_at) →
      ∀ o ∈ get_gitlab_commits api excludes fetchDiffs, start ≤ o.date) := by
  refine ⟨⟨rfl, rfl⟩, ?_⟩
  intro hapi o ho
  unfold get_gitlab_commits at ho
  rw [List.mem_insertionSort] at ho
  exact dateBound_collect api fetchDiffs start
    (List.insertionSort candLe (scanPages api.projectDetails excludes api.eventsPages []))
    hapi { acc := [], seen := [] } (fun x hx => absurd hx (List.not_mem_nil x)) o ho

theorem C4_amended_witness :
    (commitsParams "main" 100 "me@x").since = 100 ∧
    ∀ o ∈ get_gitlab_commits c4wApi [] false, 100 ≤ o.date :=
  ⟨(C4_amended 100 "me@x" "main" c4wApi [] false).1.1,
   (C4_amended 100 "me@x" "main" c4wApi [] false).2
     (fun pid br cs hcs => by
        simp only [c4wApi, List.mem_singleton] at hcs
        cases hcs
        intro c hc
        simp only [List.mem_singleton] at hc
        subst hc
        decide)⟩

/-! ## Claim C5: final report ordering -/

/-- C5 counterexample: the final sort compares display names
case-sensitively (plain Python string order), so `"Zeta"` is listed before
`"alpha"`, although the case-insensitive lexical order demanded by the
claim would place `alpha` first (`lower("Zeta") > lower("alpha")`). -/
theorem C5_counterexample :
    (get_gitlab_commits c5Api [] false).map (fun o => o.repo_name) = ["Zeta", "alpha"] ∧
    ¬(("Zeta".data.map Char.toLower) ≤ ("alpha".data.map Char.toLower)) :=
  ⟨by decide, by decide⟩

/-- C5 amended: the returned list is sorted by the key
`(repo_name, date)` — display names in case-SENSITIVE lexical order, and
within one repository the rows ascending by the (minute-resolution)
timestamp. -/
theorem C5_amended (api : Api) (excludes : List String) (fetchDiffs : Bool) :
    List.Sorted outLe (get_gitlab_commits api excludes fetchDiffs) := by
  unfold get_gitlab_commits
  exact List.sorted_insertionSort outLe _

/-! ## Claim C6: per-candidate fetch failures are isolated -/

/-- C6: a failed page fetch ends only that candidate's commit listing —
pages after the failure contribute nothing (first conjunct) — and the loop
over candidates always carries on with the remaining candidates and the
state reached so far (second conjunct); `collectCommits` is total, so no
failure value ever propagates out of the collector. -/
theorem C6_candidate_failure_isolated :
    (∀ (api : Api) (fd : Bool) (rn br : String)
        (pages₁ : List (Except String (List CommitRec))) (e : String)
        (pages₂ : List (Except String (List CommitRec))) (st : CState),
      processPages api fd rn br (pages₁ ++ Except.error e :: pages₂) st =
        processPages api fd rn br (pages₁ ++ [Except.error e]) st) ∧
    (∀ (api : Api) (fd : Bool) (c : Cand) (rest : List Cand) (st : CState),
      collectCommits api fd (c :: rest) st =
        collectCommits api fd rest (processCandidate api fd st c)) := by
  constructor
  · intro api fd rn br pages₁ e pages₂
    induction pages₁ with
    | nil => intro st; rfl
    | cons pg ps ih =>
      intro st
      cases pg with
      | error e' => rfl
      | ok cs =>
        show (if cs = [] then st
            else processPages api fd rn br (ps ++ Except.error e :: pages₂)
              (cs.foldl (processCommit api fd rn br) st)) =
          (if cs = [] then st
            else processPages api fd rn br (ps ++ [Except.error e])
              (cs.foldl (processCommit api fd rn br) st))
        split
        · rfl
        · exact ih _
  · intro api fd c rest st
    rfl

/-! ## Claim C7: which failures are fatal -/

/-- C7 counterexample: when listing the user's push events fails (part of
the global discovery phase), the run does NOT abort with a nonzero exit:
the failure merely breaks the scan loop, discovery yields no candidates,
and `main` returns normally — exit status 0 with the "no commits" message,
and no HTML file although the report flag was set. -/
theorem C7_counterexample :
    mainRun { days := 7, report := true } (some { token := "t", excludes := [] })
      (some { email := "me@x", username := "me" }) c7Api true =
      RunOutcome.finished true [] false := by decide

/-- C7 amended: only the user-identity lookup is fatal (exit 1); a failure
while listing push events just stops further discovery — the pages already
scanned keep their candidates and the run continues to a normal exit, so
once past the setup checks `main` always finishes with exit status 0,
possibly on partial results. -/
theorem C7_amended :
    (∀ (args : MainArgs) (cfg : Config) (api : Api) (tOk : Bool),
      1 ≤ args.days → args.days ≤ 45 →
      mainRun args (some cfg) none api tOk =
        RunOutcome.fatal 1 "Could not determine current user's profile. Aborting.") ∧
    (∀ (details : Nat → Option String) (excludes : List String) (p : List Event) (e : String)
        (rest : List (Except String (List Event))) (cands : List Cand),
      scanPages details excludes (Except.ok p :: Except.error e :: rest) cands =
        scanPages details excludes [Except.ok p] cands) ∧
    (∀ (args : MainArgs) (cfg : Config) (prof : UserProfile) (api : Api) (tOk : Bool),
      1 ≤ args.days → args.days ≤ 45 →
      ∃ noMsg printed html,
        mainRun args (some cfg) (some prof) api tOk =
          RunOutcome.finished noMsg printed html) := by
  refine ⟨?_, ?_, ?_⟩
  · intro args cfg api tOk h1 h2
    unfold mainRun
    rw [if_pos ⟨h1, h2⟩]
  · intro details excludes p e rest cands
    rfl
  · intro args cfg prof api tOk h1 h2
    unfold mainRun
    rw [if_pos ⟨h1, h2⟩]
    by_cases hc : get_gitlab_commits api cfg.excludes args.report = []
    · exact ⟨true, [], false, by simp [hc]⟩
    · exact ⟨false, get_gitlab_commits api cfg.excludes args.report,
        args.report && tOk, by simp [hc]⟩

theorem C7_amended_witness :
    mainRun { days := 7, report := false } (some { token := "t", excludes := [] }) none
      c7Api true =
      RunOutcome.fatal 1 "Could not determine current user's profile. Aborting." :=
  C7_amended.1 { days := 7, report := false } { token := "t", excludes := [] } c7Api true
    (by decide) (by decide)

/-! ## Claim C8: diff-fetch failures keep the commit -/

/-- C8: with diffs requested, a new commit whose diff fetch fails is still
appended to the report — with the transport-failure placeholder
`"Error fetching diff: <e>"` or the non-200 placeholder
`"Could not retrieve diff."` — its short id is recorded, and the commit
loop goes on with the remaining records of the page. -/
theorem C8_diff_failure_keeps_commit (api : Api) (rn br : String) (st : CState)
    (c : CommitRec) (hnew : c.short_id ∉ st.seen) :
    (∀ e, api.diffResp c.id = DiffFetch.transport e →
      processCommit api true rn br st c =
        { acc := st.acc ++ [rowWithDiff rn br c ("Error fetching diff: " ++ e)],
          seen := st.seen ++ [c.short_id] }) ∧
    (∀ code body, api.diffResp c.id = DiffFetch.status code body → code ≠ 200 →
      processCommit api true rn br st c =
        { acc := st.acc ++ [rowWithDiff rn br c "Could not retrieve diff."],
          seen := st.seen ++ [c.short_id] }) ∧
    (∀ cs : List CommitRec,
      (c :: cs).foldl (processCommit api true rn br) st =
        cs.foldl (processCommit api true rn br) (processCommit api true rn br st c)) := by
  refine ⟨?_, ?_, fun cs => rfl⟩
  · intro e he
    unfold processCommit
    rw [if_neg hnew]
    unfold mkOut diffText
    rw [he]
    rfl
  · intro code body hst hcode
    unfold processCommit
    rw [if_neg hnew]
    unfold mkOut diffText
    rw [hst]
    simp [hcode, rowWithDiff]

theorem C8_witness :
    processCommit c8Api true "r" "b" { acc := [], seen := [] } c8c =
      { acc := [rowWithDiff "r" "b" c8c "Error fetching diff: timeout"], seen := ["x"] } :=
  (C8_diff_failure_keeps_commit c8Api "r" "b" { acc := [], seen := [] } c8c
    (by decide)).1 "timeout" rfl

/-! ## Claim C9: empty result exits cleanly without a report -/

/-- C9: past the setup checks, whenever the collector returns no commits
`main` prints the "No new commits found" message and returns — exit status
0, nothing printed per-commit, and no HTML file written even when the
report flag (and working templates) were in effect. -/
theorem C9_no_commits_clean_exit (args : MainArgs) (cfg : Config) (prof : UserProfile)
    (api : Api) (tOk : Bool) (hd1 : 1 ≤ args.days) (hd2 : args.days ≤ 45)
    (hempty : get_gitlab_commits api cfg.excludes args.report = []) :
    mainRun args (some cfg) (some prof) api tOk = RunOutcome.finished true [] false := by
  unfold mainRun
  rw [if_pos ⟨hd1, hd2⟩]
  simp [hempty]

theorem C9_witness :
    mainRun { days := 7, report := true } (some { token := "t", excludes := [] })
      (some { email := "me@x", username := "me" }) emptyApi true =
      RunOutcome.finished true [] false :=
  C9_no_commits_clean_exit { days := 7, report := true } { token := "t", excludes := [] }
    { email := "me@x", username := "me" } emptyApi true (by decide) (by decide) (by decide)

/-! ## Claim C10: failed details lookup yields the sentinel name -/

/-- C10: when the per-project details lookup fails, the display name used
from then on — including for exclusion matching — is the sentinel
`"Unknown Project"`; hence, as long as no exclude rule is a prefix of the
sentinel (in particular when the excludes list the repository's real
path), the event still adds a branch candidate and the repository is
scanned for commits. -/
theorem C10_unknown_project_sentinel (details : Nat → Option String) (excludes : List String)
    (cands : List Cand) (ev : Event) (pid : Nat)
    (hpid : ev.project_id = some pid) (hz : pid ≠ 0)
    (hpush : containsStr ev.action_name "pushed" = true)
    (hfail : details pid = none)
    (hexcl : findExcl excludes "Unknown Project" = none)
    (hbr : eventBranch ev ≠ "unknown-branch")
    (hnotin : (pid, "Unknown Project", eventBranch ev) ∉ cands) :
    resolveName details pid = "Unknown Project" ∧
    processEvent details excludes cands ev =
      cands ++ [(pid, "Unknown Project", eventBranch ev)] := by
  have hres : resolveName details pid = "Unknown Project" := by
    unfold resolveName
    rw [hfail]
    rfl
  refine ⟨hres, ?_⟩
  obtain ⟨an, opid, oref⟩ := ev
  simp only [Event.project_id] at hpid
  subst hpid
  simp only [Event.action_name] at hpush
  unfold processEvent
  simp [hpush, hz, hres, hexcl, hbr, hnotin]

theorem C10_witness :
    resolveName (fun _ => none) 9 = "Unknown Project" ∧
    processEvent (fun _ => none) ["group/proj"] [] c10Event =
      [(9, "Unknown Project", "feature")] := by
  have h := C10_unknown_project_sentinel (fun _ => none) ["group/proj"] [] c10Event 9
    rfl (by decide) (by decide) rfl (by decide) (by decide) (by decide)
  exact ⟨h.1, h.2⟩
